import Mathlib

/-!
# Verification of the FileOrganizer desktop-organizing script

A shallow embedding of `organize_desktop.py` (functions `load_config`,
`should_skip_file`, `organize_files`, `restore_files`) together with proofs
about classification, skip filtering, configuration merging, collision
handling, the transaction log and the restore round trip.

Modelling conventions:
* Python strings are `List Char`; `str.lower` is `Char.toLower` per character
  (identical on the ASCII and CJK data involved).
* A filesystem path is the list of its components (`os.path.join` appends a
  component), so joining is injective and never confuses different levels.
* The filesystem is a map from paths to file data; `shutil.move` is
  remove-source-then-bind-destination, which on POSIX silently replaces an
  existing regular file at the destination, exactly as the script relies on.
* Wall-clock time (`datetime.now().strftime('%H%M%S')`) is a parameter: one
  organize run happens within a single second.
* Per-file I/O faults (PermissionError and friends) are an oracle
  `faults : filename → Bool`; a faulting file's handler body performs no
  state change before the exception propagates to the per-file `except`.
-/

namespace FileOrganizer

/-- Python `str.lower()` (per-character; exact on ASCII/CJK). -/
def pyLower (s : List Char) : List Char := s.map Char.toLower

/-- Python `pattern in text` (substring containment). -/
def strContains : List Char → List Char → Bool
  | [], pat => pat.isEmpty
  | c :: t, pat => pat.isPrefixOf (c :: t) || strContains t pat

/-- `os.path.splitext` on a bare filename (no directory separators):
the split is at the last `.`, except that a name whose characters before the
last dot are all dots (e.g. `".txt"`, `"..b"`) has no extension. -/
def splitext (name : List Char) : List Char × List Char :=
  let extLen := (name.reverse.takeWhile (fun c => c ≠ '.')).length
  if extLen = name.length then (name, [])
  else
    let dotIdx := name.length - extLen - 1
    if (name.take dotIdx).all (fun c => c = '.') then (name, [])
    else (name.take dotIdx, name.drop dotIdx)

/-- `os.path.splitext(filename)[1].lower()` — the extension the script
classifies by (line 91 of the source). -/
def pyExt (filename : List Char) : List Char := pyLower (splitext filename).2

/-- `should_skip_file` (source lines 46-55): the filename is lower-cased once;
a pattern starting with `'.'` matches as a suffix of the lowered name, and any
pattern matches as a verbatim substring of the lowered name; first match wins. -/
def should_skip_file (filename : List Char) (skip_patterns : List (List Char)) : Bool :=
  let lower_name := pyLower filename
  skip_patterns.any (fun pattern =>
    (['.'].isPrefixOf pattern && pattern.isSuffixOf lower_name)
      || strContains lower_name pattern)

/-- The skip predicate as the CLAIM (C3, spec §4.2) words it, for comparison:
the claim says the pattern is lower-cased before the substring test. -/
def shouldSkipClaim (filename : List Char) (skip_patterns : List (List Char)) : Bool :=
  let lower_name := pyLower filename
  skip_patterns.any (fun pattern =>
    (['.'].isPrefixOf pattern && pattern.isSuffixOf lower_name)
      || strContains lower_name (pyLower pattern))

/-- A category table as the engine consumes it: category name ↦ extension list,
in insertion order (Python dicts iterate in insertion order). -/
abbrev Categories := List (List Char × List (List Char))

/-- The fallback folder name `"其他"` for unclassified files. -/
def uncategorizedName : List Char := "其他".toList

/-- The inner loop of lines 95-118: the first category (in order) whose
extension list contains `ext`. -/
def classifyCat (categories : Categories) (ext : List Char) :
    Option (List Char × List (List Char)) :=
  categories.find? (fun c => decide (ext ∈ c.2))

/-- The classification the script performs for a filename: the first matching
category's name, or `"其他"` (lines 91, 95-96, 120-122). -/
def classifyName (categories : Categories) (filename : List Char) : List Char :=
  match classifyCat categories (pyExt filename) with
  | some c => c.1
  | none => uncategorizedName

/-- Extension extraction as the CLAIM (C2, spec §4.3) words it, for comparison:
"the final `.`-delimited suffix, lower-cased, including the leading dot;
empty string if none" — with no special case for leading-dot names. -/
def claimExt (filename : List Char) : List Char :=
  let extR := filename.reverse.takeWhile (fun c => c ≠ '.')
  if extR.length = filename.length then []
  else pyLower ('.' :: extR.reverse)

/-- Classification as the CLAIM (C2) words it, for comparison with
`classifyName`. -/
def classifyClaim (categories : Categories) (filename : List Char) : List Char :=
  match classifyCat categories (claimExt filename) with
  | some c => c.1
  | none => uncategorizedName

/-- The default category table of `DEFAULT_CONFIG` (source lines 13-21). -/
def defaultCategories : Categories :=
  [("图片".toList, [".jpg".toList, ".jpeg".toList, ".png".toList, ".gif".toList,
      ".bmp".toList, ".webp".toList]),
   ("文档".toList, [".pdf".toList, ".docx".toList, ".doc".toList, ".xlsx".toList,
      ".pptx".toList, ".txt".toList]),
   ("压缩包".toList, [".zip".toList, ".rar".toList, ".7z".toList, ".tar".toList,
      ".gz".toList]),
   ("代码".toList, [".py".toList, ".js".toList, ".html".toList, ".css".toList,
      ".java".toList, ".c".toList, ".cpp".toList]),
   ("可执行文件".toList, [".exe".toList, ".msi".toList, ".bat".toList, ".cmd".toList]),
   ("快捷方式".toList, [".lnk".toList, ".url".toList, ".desktop".toList]),
   ("媒体".toList, [".mp3".toList, ".mp4".toList, ".avi".toList, ".mov".toList,
      ".wav".toList])]

/-- The default skip patterns of `DEFAULT_CONFIG` (source line 11). -/
def defaultSkip : List (List Char) :=
  [".ini".toList, ".db".toList, ".tmp".toList, "~$".toList]

/-! ## Configuration loading (`load_config`, source lines 27-44)

JSON values as `json.load` produces them.  Object keys are strings (JSON);
an object is its insertion-ordered entry list, as in a Python dict. -/

inductive JVal where
  | dict (entries : List (List Char × JVal))
  | arr (elems : List JVal)
  | str (s : List Char)
  | boolean (b : Bool)
  | num (n : Int)

/-- Association-list lookup: Python `key in d` / `d[key]`. -/
def alookup {β : Type} : List (List Char × β) → List Char → Option β
  | [], _ => none
  | e :: t, k => if e.1 = k then some e.2 else alookup t k

/-- `d[key] = v` on a Python dict: replace in place, else append. -/
def aset {β : Type} : List (List Char × β) → List Char → β → List (List Char × β)
  | [], k, v => [(k, v)]
  | e :: t, k, v => if e.1 = k then (k, v) :: t else e :: aset t k v

/-- `d.update(u)` where `u` is a dict. -/
def dictUpdate (d u : List (List Char × JVal)) : List (List Char × JVal) :=
  u.foldl (fun acc kv => aset acc kv.1 kv.2) d

/-- One element of a non-dict iterable passed to `dict.update`: it must
unpack as a key/value pair with a string key (a two-element array whose head
is a string, or a two-character string).  Pairs with non-string keys are
outside the model (JSON-decoded configs never produce dict keys we cannot
represent without them) and are treated as the error case. -/
def pairOf : JVal → Option (List Char × JVal)
  | .arr [.str k, v] => some (k, v)
  | .str [a, b] => some ([a], .str [b])
  | _ => none

/-- `dict.update` over a list argument: pairs are inserted one by one, and a
non-pair element raises, keeping the insertions already made. -/
def updateArr (d : List (List Char × JVal)) : List JVal → List (List Char × JVal) × Bool
  | [] => (d, false)
  | e :: t =>
    match pairOf e with
    | some kv => updateArr (aset d kv.1 kv.2) t
    | none => (d, true)

/-- `d.update(v)` for an arbitrary JSON value `v` (source line 38): a dict
merges; a list inserts pairwise (raising at the first non-pair); the empty
string iterates nothing; every other scalar raises before mutating.  The
boolean records whether the call raised. -/
def updateWith (d : List (List Char × JVal)) : JVal → List (List Char × JVal) × Bool
  | .dict u => (dictUpdate d u, false)
  | .arr elems => updateArr d elems
  | .str [] => (d, false)
  | .str (_ :: _) => (d, true)
  | .boolean _ => (d, true)
  | .num _ => (d, true)

/-- Outcome of opening and JSON-parsing the override file:
`absent` = no path given or `os.path.exists` false (merge skipped silently);
`unreadable` = `open`/`json.load` raised (caught, warning printed);
`parsed user` = the decoded top-level object. -/
inductive CfgRead where
  | absent
  | unreadable
  | parsed (user : List (List Char × JVal))

/-- Result of `load_config`: the returned config, the value of the
module-level `DEFAULT_CONFIG` after the call (`config = DEFAULT_CONFIG.copy()`
is shallow, so updating a nested dict in `config` mutates the same object
inside `DEFAULT_CONFIG`), and whether the warning branch ran. -/
structure LoadResult where
  config : List (List Char × JVal)
  dflt : List (List Char × JVal)
  warned : Bool

/-- The merge loop of source lines 36-40, carrying the shared-object mutation
of `DEFAULT_CONFIG`.  JSON object keys are unique, so when the loop reaches a
key `k` with `config[k]` a dict, that dict is still the object shared with
`DEFAULT_CONFIG[k]`, and the in-place `update` changes both; rebinding
(`config[key] = ...`) changes only the copy.  On a raise the `except` of
line 41 ends the loop, keeping everything merged so far. -/
def loadLoop : List (List Char × JVal) → List (List Char × JVal) →
    List (List Char × JVal) → LoadResult
  | [], cfg, dcur => ⟨cfg, dcur, false⟩
  | (k, v) :: rest, cfg, dcur =>
    match alookup cfg k with
    | some (.dict d) =>
      let upd := updateWith d v
      let cfg' := aset cfg k (.dict upd.1)
      let dcur' := aset dcur k (.dict upd.1)
      if upd.2 then ⟨cfg', dcur', true⟩ else loadLoop rest cfg' dcur'
    | some (.arr _) => loadLoop rest (aset cfg k v) dcur
    | some (.str _) => loadLoop rest (aset cfg k v) dcur
    | some (.boolean _) => loadLoop rest (aset cfg k v) dcur
    | some (.num _) => loadLoop rest (aset cfg k v) dcur
    | none => loadLoop rest (aset cfg k v) dcur

/-- `load_config` (source lines 27-44), over the outcome of reading the
override file. -/
def load_config (dflt : List (List Char × JVal)) (src : CfgRead) : LoadResult :=
  match src with
  | .absent => ⟨dflt, dflt, false⟩
  | .unreadable => ⟨dflt, dflt, true⟩
  | .parsed user => loadLoop user dflt dflt

/-- The per-key merge rule as the CLAIM (C8, spec §4.1) words it, for
comparison: if the key exists in the default with a mapping value and the
override value is a mapping, merge one level; otherwise the override value
fully replaces the default value. -/
def claimMergeKey (dflt cfg : List (List Char × JVal)) (k : List Char) (v : JVal) :
    List (List Char × JVal) :=
  match alookup dflt k, v with
  | some (.dict d), .dict u => aset cfg k (.dict (dictUpdate d u))
  | _, _ => aset cfg k v

/-- The whole merge as the CLAIM (C8) words it. -/
def claimMerge (dflt : List (List Char × JVal)) (user : List (List Char × JVal)) :
    List (List Char × JVal) :=
  user.foldl (fun cfg kv => claimMergeKey dflt cfg kv.1 kv.2) dflt

/-- `DEFAULT_CONFIG` (source lines 10-22) as the JSON-level value that
`load_config` merges into. -/
def DEFAULT_CONFIG : List (List Char × JVal) :=
  [("skip_files".toList, .arr (defaultSkip.map .str)),
   ("backup_log".toList, .boolean true),
   ("categories".toList, .dict (defaultCategories.map
      (fun c => (c.1, JVal.arr (c.2.map .str)))))]

/-- The names of the configured categories — a decidable projection used to
compare configuration values. -/
def catKeys (c : List (List Char × JVal)) : List (List Char) :=
  match alookup c "categories".toList with
  | some (.dict d) => d.map (fun e => e.1)
  | _ => []

/-! ## Filesystem model and the organize engine (source lines 57-153) -/

/-- A path is its component list; `os.path.join(p, c) = p ++ [c]`. -/
abbrev Path := List (List Char)

/-- One entry of the transaction log (source lines 110-113). -/
structure MoveRecord where
  original : Path
  new_location : Path
deriving DecidableEq

/-- What a path can hold: an ordinary file with an identity, or the persisted
backup log (whose JSON content is its operation list). -/
inductive FData where
  | file (id : Nat)
  | log (ops : List MoveRecord)
deriving DecidableEq

/-- The filesystem: regular files by full path.  Directories are implicit
(`os.makedirs(..., exist_ok=True)` is a no-op in the model). -/
def FS := Path → Option FData

def emptyFS : FS := fun _ => none

/-- Create or replace the file at `p` (binding a path replaces what was
there, as `shutil.move`/`json.dump` onto an existing file does on POSIX). -/
def fsSet (fs : FS) (p : Path) (d : FData) : FS :=
  fun q => if q = p then some d else fs q

/-- `os.remove p`. -/
def fsRemove (fs : FS) (p : Path) : FS :=
  fun q => if q = p then none else fs q

/-- `isinstance`-style test used to state hypotheses decidably: the path
holds an ordinary file. -/
def isFile : Option FData → Bool
  | some (.file _) => true
  | _ => false

/-- The configuration as `organize_files` consumes it. -/
structure EngineConfig where
  skip_files : List (List Char)
  categories : Categories
  backup_log : Bool

/-- The mutable state of the main loop of lines 84-141: the filesystem, the
in-memory `backup_log['operations']`, the `processed` counter, and the files
whose handler reported an error (lines 136-141). -/
structure OrgState where
  fs : FS
  ops : List MoveRecord
  processed : Nat
  errors : List (List Char)

/-- The fixed log filename `"文件整理备份.json"` (source lines 145, 160). -/
def logName : List Char := "文件整理备份.json".toList

/-- Lines 98-104: the destination inside `folder` for `filename`, renamed to
`base_HHMMSS.ext` when the plain destination already exists.  Only the
categorized branch of the script performs this check. -/
def resolveDst (fs : FS) (folder : Path) (filename time : List Char) : Path :=
  let dst := folder ++ [filename]
  if (fs dst).isSome then
    let be := splitext filename
    folder ++ [be.1 ++ ('_' :: time) ++ be.2]
  else dst

/-- The body of the per-file `try` (lines 89-134).  A faulting file's
handler performs no state change before its exception reaches the `except`
(lines 136-141), which records the error and continues; likewise a source
that vanished (`FileNotFoundError`).  A moved file is recorded in the log
list only when `backup_log` is set (lines 109, 127). -/
def processFile (cfg : EngineConfig) (desk : Path) (time : List Char)
    (faults : List Char → Bool) (st : OrgState) (filename : List Char) : OrgState :=
  if faults filename then { st with errors := st.errors ++ [filename] } else
  let src := desk ++ [filename]
  match classifyCat cfg.categories (pyExt filename) with
  | some cat =>
    let dst := resolveDst st.fs (desk ++ [cat.1]) filename time
    match st.fs src with
    | none => { st with errors := st.errors ++ [filename] }
    | some data =>
      { fs := fsSet (fsRemove st.fs src) dst data
        ops := st.ops ++ (if cfg.backup_log then [⟨src, dst⟩] else [])
        processed := st.processed + 1
        errors := st.errors }
  | none =>
    let dst := desk ++ [uncategorizedName] ++ [filename]
    match st.fs src with
    | none => { st with errors := st.errors ++ [filename] }
    | some data =>
      { fs := fsSet (fsRemove st.fs src) dst data
        ops := st.ops ++ (if cfg.backup_log then [⟨src, dst⟩] else [])
        processed := st.processed + 1
        errors := st.errors }

/-- `organize_files` (source lines 57-153) over the listing that
`os.listdir` + `os.path.isfile` produced: filter out skipped names (line 70),
process each file in order, and persist the log (lines 144-147) when logging
is on and at least one move was recorded. -/
def organize_files (cfg : EngineConfig) (desk : Path) (time : List Char)
    (faults : List Char → Bool) (fs0 : FS) (listing : List (List Char)) : OrgState :=
  let files := listing.filter (fun f => !should_skip_file f cfg.skip_files)
  let st := files.foldl (processFile cfg desk time faults) ⟨fs0, [], 0, []⟩
  if cfg.backup_log && !st.ops.isEmpty then
    { st with fs := fsSet st.fs (desk ++ [logName]) (.log st.ops) }
  else st

/-! ## The restore engine (`restore_files`, source lines 155-206) -/

/-- Outcome of opening and parsing the log file:
`notFound` = `os.path.exists` false (line 162);
`malformed` = the log does not parse as the expected structure
(`json.JSONDecodeError`, or a decoded value without `.get`, lines 203-206);
`parsed ops` = the decoded `operations` list (line 170; a missing key
defaults to `[]`). -/
inductive LogRead where
  | notFound
  | malformed
  | parsed (ops : List MoveRecord)

/-- How `restore_files` ended. -/
inductive RestoreOutcome where
  | noLog
  | badLog
  | emptyOps
  | done (success total : Nat)
deriving DecidableEq

/-- One record of the reverse loop (lines 180-197): move the recorded new
location back to the original if it still exists, else warn and continue.
Returns the new filesystem and whether the record counted as a success. -/
def restoreStep (fs : FS) (op : MoveRecord) : FS × Bool :=
  match fs op.new_location with
  | some data => (fsSet (fsRemove fs op.new_location) op.original data, true)
  | none => (fs, false)

/-- The loop of lines 179-197 over an already-reversed record list, carrying
the filesystem and the `success_count`. -/
def restoreFold (L : List MoveRecord) (acc : FS × Nat) : FS × Nat :=
  L.foldl
    (fun acc op =>
      let s := restoreStep acc.1 op
      (s.1, acc.2 + (if s.2 then 1 else 0)))
    acc

/-- `restore_files` (source lines 155-206): an absent or unparsable log ends
the operation with nothing touched; an empty operation list ends without
deleting the log (line 173); otherwise the records are replayed in reverse
order and the log file is removed afterwards (line 200). -/
def restore_files (fs : FS) (logPath : Path) (r : LogRead) : FS × RestoreOutcome :=
  match r with
  | .notFound => (fs, .noLog)
  | .malformed => (fs, .badLog)
  | .parsed ops =>
    if ops.isEmpty then (fs, .emptyOps)
    else
      let res := restoreFold ops.reverse (fs, 0)
      (fsRemove res.1 logPath, .done res.2 ops.length)

/-! ## Basic lemmas about the model -/

theorem fsSet_self (fs : FS) (p : Path) (d : FData) : fsSet fs p d p = some d := by
  simp [fsSet]

theorem fsSet_ne (fs : FS) (p : Path) (d : FData) {q : Path} (h : q ≠ p) :
    fsSet fs p d q = fs q := by
  simp [fsSet, h]

theorem fsRemove_self (fs : FS) (p : Path) : fsRemove fs p p = none := by
  simp [fsRemove]

theorem fsRemove_ne (fs : FS) (p : Path) {q : Path} (h : q ≠ p) :
    fsRemove fs p q = fs q := by
  simp [fsRemove, h]

theorem isFile_iff {o : Option FData} : isFile o = true ↔ ∃ id, o = some (.file id) := by
  cases o with
  | none => simp [isFile]
  | some d => cases d <;> simp [isFile]

theorem join_inj {desk : Path} {a b : List Char} (h : desk ++ [a] = desk ++ [b]) : a = b := by
  have := List.append_cancel_left h
  simpa using this

theorem join_len (desk : Path) (a : List Char) : (desk ++ [a]).length = desk.length + 1 := by
  simp

theorem join2_len (desk : Path) (c a : List Char) :
    (desk ++ [c] ++ [a]).length = desk.length + 2 := by
  simp

theorem alookup_aset_self {β : Type} (m : List (List Char × β)) (k : List Char) (v : β) :
    alookup (aset m k v) k = some v := by
  induction m with
  | nil => simp [aset, alookup]
  | cons e t ih =>
    by_cases h : e.1 = k
    · simp [aset, alookup, h]
    · simp [aset, alookup, h, ih]

theorem alookup_aset_ne {β : Type} (m : List (List Char × β)) (k k' : List Char) (v : β)
    (h : k' ≠ k) : alookup (aset m k v) k' = alookup m k' := by
  induction m with
  | nil =>
    simp only [aset, alookup]
    exact if_neg (fun hh => h hh.symm)
  | cons e t ih =>
    by_cases he : e.1 = k
    · subst he
      simp [aset, alookup, Ne.symm h]
    · simp only [aset, if_neg he]
      by_cases he' : e.1 = k'
      · simp [alookup, he']
      · simp [alookup, he', ih]

theorem strContains_iff (hay pat : List Char) : strContains hay pat = true ↔ pat <:+: hay := by
  induction hay with
  | nil =>
    simp [strContains, List.isEmpty_iff, List.infix_nil]
  | cons c t ih =>
    simp [strContains, List.infix_cons_iff, ih]

/-! ## Lemmas about classification -/

theorem classifyCat_eq_none {cats : Categories} {ext : List Char}
    (h : ∀ c ∈ cats, ext ∉ c.2) : classifyCat cats ext = none := by
  apply List.find?_eq_none.mpr
  intro c hc
  simpa using h c hc

theorem classifyCat_first (cats : Categories) (ext : List Char) :
    ∀ (i : Nat) (hi : i < cats.length), ext ∈ (cats.get ⟨i, hi⟩).2 →
    (∀ (j : Nat) (hj : j < i), ext ∈ (cats.get ⟨j, Nat.lt_trans hj hi⟩).2 → False) →
    classifyCat cats ext = some (cats.get ⟨i, hi⟩) := by
  induction cats with
  | nil => intro i hi; simp at hi
  | cons c rest ih =>
    intro i hi hmem hbefore
    cases i with
    | zero =>
      simp only [List.get] at hmem ⊢
      simp [classifyCat, List.find?_cons_of_pos, hmem]
    | succ k =>
      have hc : ext ∉ c.2 := by
        intro hmem0
        exact hbefore 0 (Nat.succ_pos k) hmem0
      have hk : k < rest.length := Nat.lt_of_succ_lt_succ hi
      have := ih k hk (by simpa using hmem)
        (fun j hj hmemj => hbefore (j + 1) (Nat.succ_lt_succ hj) (by simpa using hmemj))
      simp only [List.get]
      rw [classifyCat, List.find?_cons_of_neg _ (by simpa using hc)]
      exact this

/-! ## Step equations for the organize loop -/

/-- The destination `processFile` moves `filename` to, over the filesystem at
that moment: the collision-resolved path in the matching category's folder, or
`其他/filename` (with no collision handling) when no category matches. -/
def dstOf (cfg : EngineConfig) (desk : Path) (time : List Char) (fs : FS)
    (filename : List Char) : Path :=
  match classifyCat cfg.categories (pyExt filename) with
  | some cat => resolveDst fs (desk ++ [cat.1]) filename time
  | none => desk ++ [uncategorizedName] ++ [filename]

theorem resolveDst_len (fs : FS) (folder : Path) (filename time : List Char) :
    (resolveDst fs folder filename time).length = folder.length + 1 := by
  unfold resolveDst
  by_cases h : (fs (folder ++ [filename])).isSome <;> simp [h]

theorem dstOf_len (cfg : EngineConfig) (desk : Path) (time : List Char) (fs : FS)
    (filename : List Char) :
    (dstOf cfg desk time fs filename).length = desk.length + 2 := by
  unfold dstOf
  cases h : classifyCat cfg.categories (pyExt filename) with
  | none => simp
  | some cat => rw [resolveDst_len]; simp

theorem processFile_fault {cfg : EngineConfig} {desk : Path} {time : List Char}
    {faults : List Char → Bool} {st : OrgState} {filename : List Char}
    (h : faults filename = true) :
    processFile cfg desk time faults st filename = { st with errors := st.errors ++ [filename] } := by
  simp [processFile, h]

theorem processFile_move {cfg : EngineConfig} {desk : Path} {time : List Char}
    {faults : List Char → Bool} {st : OrgState} {filename : List Char} {data : FData}
    (h : faults filename = false) (hsrc : st.fs (desk ++ [filename]) = some data) :
    processFile cfg desk time faults st filename =
      { fs := fsSet (fsRemove st.fs (desk ++ [filename])) (dstOf cfg desk time st.fs filename) data
        ops := st.ops ++ (if cfg.backup_log then
          [⟨desk ++ [filename], dstOf cfg desk time st.fs filename⟩] else [])
        processed := st.processed + 1
        errors := st.errors } := by
  cases hcat : classifyCat cfg.categories (pyExt filename) with
  | none => simp [processFile, dstOf, h, hcat, hsrc]
  | some cat => simp [processFile, dstOf, h, hcat, hsrc]

theorem processFile_missing {cfg : EngineConfig} {desk : Path} {time : List Char}
    {faults : List Char → Bool} {st : OrgState} {filename : List Char}
    (h : faults filename = false) (hsrc : st.fs (desk ++ [filename]) = none) :
    processFile cfg desk time faults st filename = { st with errors := st.errors ++ [filename] } := by
  cases hcat : classifyCat cfg.categories (pyExt filename) with
  | none => simp [processFile, h, hcat, hsrc]
  | some cat => simp [processFile, h, hcat, hsrc]

/-! ## Step equations for the restore loop -/

theorem restoreStep_hit {fs : FS} {op : MoveRecord} {data : FData}
    (h : fs op.new_location = some data) :
    restoreStep fs op = (fsSet (fsRemove fs op.new_location) op.original data, true) := by
  simp [restoreStep, h]

theorem restoreStep_miss {fs : FS} {op : MoveRecord}
    (h : fs op.new_location = none) :
    restoreStep fs op = (fs, false) := by
  simp [restoreStep, h]

/-! ## Invariants of the organize loop -/

/-- Paths that are neither directly inside the target directory under a
processed name nor two levels deep are untouched by the loop. -/
theorem orgFold_frame (cfg : EngineConfig) (desk : Path) (time : List Char)
    (faults : List Char → Bool) :
    ∀ (files : List (List Char)) (st : OrgState) (p : Path),
    (∀ f ∈ files, p ≠ desk ++ [f]) → p.length ≠ desk.length + 2 →
    (files.foldl (processFile cfg desk time faults) st).fs p = st.fs p := by
  intro files
  induction files with
  | nil => intro st p _ _; rfl
  | cons f rest ih =>
    intro st p hp hlen
    rw [List.foldl_cons,
      ih (processFile cfg desk time faults st f) p
        (fun g hg => hp g (List.mem_cons_of_mem f hg)) hlen]
    by_cases hf : faults f = true
    · rw [processFile_fault hf]
    · have hf' : faults f = false := by simpa using hf
      cases hsrc : st.fs (desk ++ [f]) with
      | none => rw [processFile_missing hf' hsrc]
      | some data =>
        rw [processFile_move hf' hsrc]
        have hpd : p ≠ dstOf cfg desk time st.fs f := by
          intro h
          exact hlen (by rw [h, dstOf_len])
        have hps : p ≠ desk ++ [f] := hp f (List.mem_cons_self f rest)
        show fsSet (fsRemove st.fs (desk ++ [f])) (dstOf cfg desk time st.fs f) data p = st.fs p
        rw [fsSet_ne _ _ _ hpd, fsRemove_ne _ _ hps]

/-- Every record the loop appends has a processed filename as its original. -/
theorem orgFold_ops (cfg : EngineConfig) (desk : Path) (time : List Char)
    (faults : List Char → Bool) :
    ∀ (files : List (List Char)) (st : OrgState) (r : MoveRecord),
    r ∈ (files.foldl (processFile cfg desk time faults) st).ops →
    r ∈ st.ops ∨ ∃ f ∈ files, r.original = desk ++ [f] := by
  intro files
  induction files with
  | nil => intro st r h; exact Or.inl h
  | cons f rest ih =>
    intro st r h
    rw [List.foldl_cons] at h
    rcases ih _ r h with h1 | ⟨g, hg, ho⟩
    · by_cases hf : faults f = true
      · rw [processFile_fault hf] at h1
        exact Or.inl h1
      · have hf' : faults f = false := by simpa using hf
        cases hsrc : st.fs (desk ++ [f]) with
        | none =>
          rw [processFile_missing hf' hsrc] at h1
          exact Or.inl h1
        | some data =>
          rw [processFile_move hf' hsrc] at h1
          rcases List.mem_append.mp h1 with h2 | h2
          · exact Or.inl h2
          · refine Or.inr ⟨f, List.mem_cons_self f rest, ?_⟩
            by_cases hb : cfg.backup_log = true <;> simp [hb] at h2
            rw [h2]
    · exact Or.inr ⟨g, List.mem_cons_of_mem f hg, ho⟩

/-- The main invariant of the organize loop: when the listed files are
distinct and all present, the loop produces one move per non-faulting file in
order, reports exactly the faulting files, and — provided the chosen
destinations are distinct — leaves each moved file's content at its recorded
new location. -/
theorem orgFold_spec (cfg : EngineConfig) (desk : Path) (time : List Char)
    (faults : List Char → Bool) :
    ∀ (files : List (List Char)) (st : OrgState),
    (∀ f ∈ files, isFile (st.fs (desk ++ [f])) = true) →
    files.Nodup →
    ∃ Δ : List MoveRecord,
      (files.foldl (processFile cfg desk time faults) st).ops
          = st.ops ++ (if cfg.backup_log then Δ else []) ∧
      (files.foldl (processFile cfg desk time faults) st).errors
          = st.errors ++ files.filter faults ∧
      (files.foldl (processFile cfg desk time faults) st).processed
          = st.processed + (files.filter (fun g => !faults g)).length ∧
      Δ.map (fun r => r.original)
          = (files.filter (fun g => !faults g)).map (fun g => desk ++ [g]) ∧
      (∀ r ∈ Δ, r.new_location.length = desk.length + 2) ∧
      (∀ p : Path, (∀ f ∈ files, p ≠ desk ++ [f]) → (∀ r ∈ Δ, p ≠ r.new_location) →
          (files.foldl (processFile cfg desk time faults) st).fs p = st.fs p) ∧
      ((Δ.map (fun r => r.new_location)).Nodup →
          ∀ r ∈ Δ, ∃ id,
            (files.foldl (processFile cfg desk time faults) st).fs r.new_location
                = some (.file id) ∧
            st.fs r.original = some (.file id)) := by
  intro files
  induction files with
  | nil =>
    intro st _ _
    exact ⟨[], by simp, by simp, by simp, by simp, by simp, fun p _ _ => rfl, by simp⟩
  | cons f rest ih =>
    intro st hsrc hnd
    have hndr : rest.Nodup := (List.nodup_cons.mp hnd).2
    have hfni : f ∉ rest := (List.nodup_cons.mp hnd).1
    by_cases hf : faults f = true
    · -- the file faults: only an error is recorded and the loop continues
      have hstep : processFile cfg desk time faults st f
          = { st with errors := st.errors ++ [f] } := processFile_fault hf
      obtain ⟨Δ, h1, h2, h3, h4, h5, h6, h7⟩ :=
        ih { st with errors := st.errors ++ [f] }
          (fun g hg => hsrc g (List.mem_cons_of_mem f hg)) hndr
      refine ⟨Δ, ?_, ?_, ?_, ?_, h5, ?_, ?_⟩
      · rw [List.foldl_cons, hstep]; exact h1
      · rw [List.foldl_cons, hstep, h2, List.filter_cons_of_pos hf]
        simp
      · rw [List.foldl_cons, hstep, h3, List.filter_cons_of_neg (by simp [hf])]
      · rw [h4, List.filter_cons_of_neg (by simp [hf])]
      · intro p hp hpn
        rw [List.foldl_cons, hstep,
          h6 p (fun g hg => hp g (List.mem_cons_of_mem f hg)) hpn]
      · intro hΔ r hr
        obtain ⟨id, ha, hb⟩ := h7 hΔ r hr
        exact ⟨id, by rw [List.foldl_cons, hstep]; exact ha, hb⟩
    · -- the file is processed and moved
      have hf' : faults f = false := by simpa using hf
      obtain ⟨id0, hid0⟩ := isFile_iff.mp (hsrc f (List.mem_cons_self f rest))
      have hstep := @processFile_move cfg desk time faults st f (.file id0) hf' hid0
      set S : Path := desk ++ [f] with hS
      set D : Path := dstOf cfg desk time st.fs f with hD
      have hDlen : D.length = desk.length + 2 := dstOf_len cfg desk time st.fs f
      set st1 : OrgState :=
        { fs := fsSet (fsRemove st.fs S) D (.file id0)
          ops := st.ops ++ (if cfg.backup_log then [⟨S, D⟩] else [])
          processed := st.processed + 1
          errors := st.errors } with hst1
      have hsrc1 : ∀ g ∈ rest, isFile (st1.fs (desk ++ [g])) = true := by
        intro g hg
        have hgf : g ≠ f := fun h => hfni (h ▸ hg)
        have h1 : desk ++ [g] ≠ S := fun h => hgf (join_inj h)
        have h2 : desk ++ [g] ≠ D := by
          intro h
          have := congrArg List.length h
          rw [join_len, hDlen] at this
          omega
        show isFile (fsSet (fsRemove st.fs S) D (.file id0) (desk ++ [g])) = true
        rw [fsSet_ne _ _ _ h2, fsRemove_ne _ _ h1]
        exact hsrc g (List.mem_cons_of_mem f hg)
      obtain ⟨Δ, h1, h2, h3, h4, h5, h6, h7⟩ := ih st1 hsrc1 hndr
      refine ⟨⟨S, D⟩ :: Δ, ?_, ?_, ?_, ?_, ?_, ?_, ?_⟩
      · rw [List.foldl_cons, hstep, h1]
        show st1.ops ++ _ = _
        rw [hst1]
        by_cases hb : cfg.backup_log = true <;> simp [hb]
      · rw [List.foldl_cons, hstep, h2, List.filter_cons_of_neg (by simp [hf'])]
      · rw [List.foldl_cons, hstep, h3, List.filter_cons_of_pos (by simp [hf'])]
        show st.processed + 1 + _ = _
        simp [Nat.add_assoc, Nat.add_comm 1]
      · rw [List.map_cons, h4, List.filter_cons_of_pos (by simp [hf'])]
        rfl
      · intro r hr
        rcases List.mem_cons.mp hr with h | h
        · rw [h]; exact hDlen
        · exact h5 r h
      · intro p hp hpn
        have hpS : p ≠ S := hp f (List.mem_cons_self f rest)
        have hpD : p ≠ D := hpn ⟨S, D⟩ (List.mem_cons_self _ Δ)
        rw [List.foldl_cons, hstep,
          h6 p (fun g hg => hp g (List.mem_cons_of_mem f hg))
            (fun r hr => hpn r (List.mem_cons_of_mem _ hr))]
        show fsSet (fsRemove st.fs S) D (.file id0) p = st.fs p
        rw [fsSet_ne _ _ _ hpD, fsRemove_ne _ _ hpS]
      · intro hΔ r hr
        rw [List.map_cons, List.nodup_cons] at hΔ
        obtain ⟨hDni, hΔ'⟩ := hΔ
        rcases List.mem_cons.mp hr with h | h
        · -- the new head record: its destination survives the rest of the loop
          refine ⟨id0, ?_, ?_⟩
          · have h6D : (rest.foldl (processFile cfg desk time faults) st1).fs D
                = st1.fs D := by
              apply h6 D
              · intro g hg
                intro hEq
                have := congrArg List.length hEq
                rw [join_len, hDlen] at this
                omega
              · intro r' hr' hEq
                exact hDni (hEq ▸ List.mem_map_of_mem (fun q => q.new_location) hr')
            rw [List.foldl_cons, hstep, h, h6D]
            show fsSet (fsRemove st.fs S) D (.file id0) D = some (.file id0)
            exact fsSet_self _ _ _
          · rw [h]
            exact hid0
        · -- an older record: its source was untouched by the head move
          obtain ⟨id, ha, hb⟩ := h7 hΔ' r h
          refine ⟨id, by rw [List.foldl_cons, hstep]; exact ha, ?_⟩
          have horig : ∃ g ∈ rest, r.original = desk ++ [g] := by
            have : r.original ∈ Δ.map (fun q => q.original) :=
              List.mem_map_of_mem _ h
            rw [h4] at this
            obtain ⟨g, hg, hEq⟩ := List.mem_map.mp this
            exact ⟨g, (List.mem_filter.mp hg).1, hEq.symm⟩
          obtain ⟨g, hg, hEq⟩ := horig
          have hgf : g ≠ f := fun hh => hfni (hh ▸ hg)
          have hOS : r.original ≠ S := by
            rw [hEq]
            exact fun hh => hgf (join_inj hh)
          have hOD : r.original ≠ D := by
            intro hh
            have := congrArg List.length hh
            rw [hEq, join_len, hDlen] at this
            omega
          rw [hst1] at hb
          rw [← hb]
          show st.fs r.original = fsSet (fsRemove st.fs S) D (.file id0) r.original
          rw [fsSet_ne _ _ _ hOD, fsRemove_ne _ _ hOS]

/-! ## Invariants of the restore loop -/

/-- The restore loop over a record list whose recorded locations are distinct,
all present, and disjoint from the originals: every record's content lands at
its original path, untouched paths stay untouched, and every record counts as
a success. -/
theorem restoreFold_spec :
    ∀ (L : List MoveRecord) (fs : FS) (n : Nat),
    (∀ r ∈ L, isFile (fs r.new_location) = true) →
    (L.map (fun r => r.new_location)).Nodup →
    (L.map (fun r => r.original)).Nodup →
    (∀ r ∈ L, ∀ q ∈ L, r.original ≠ q.new_location) →
    (∀ r ∈ L, (restoreFold L (fs, n)).1 r.original = fs r.new_location) ∧
    (∀ p, (∀ r ∈ L, p ≠ r.original ∧ p ≠ r.new_location) →
        (restoreFold L (fs, n)).1 p = fs p) ∧
    (restoreFold L (fs, n)).2 = n + L.length := by
  intro L
  induction L with
  | nil =>
    intro fs n _ _ _ _
    exact ⟨by simp, fun p _ => rfl, by simp [restoreFold]⟩
  | cons r0 L ih =>
    intro fs n hpres hndN hndO hdisj
    obtain ⟨id0, hid0⟩ := isFile_iff.mp (hpres r0 (List.mem_cons_self r0 L))
    set fs1 : FS := fsSet (fsRemove fs r0.new_location) r0.original (.file id0) with hfs1
    have hfold : restoreFold (r0 :: L) (fs, n) = restoreFold L (fs1, n + 1) := by
      rw [restoreFold, List.foldl_cons, restoreStep_hit hid0]
      rfl
    rw [List.map_cons, List.nodup_cons] at hndN hndO
    obtain ⟨hN0, hndN'⟩ := hndN
    obtain ⟨hO0, hndO'⟩ := hndO
    have hpres1 : ∀ r ∈ L, isFile (fs1 r.new_location) = true := by
      intro r hr
      have h1 : r.new_location ≠ r0.new_location := by
        intro h
        exact hN0 (h ▸ List.mem_map_of_mem (fun q => q.new_location) hr)
      have h2 : r.new_location ≠ r0.original :=
        fun h => hdisj r0 (List.mem_cons_self r0 L) r (List.mem_cons_of_mem r0 hr) h.symm
      rw [hfs1]
      show isFile (fsSet (fsRemove fs r0.new_location) r0.original (.file id0)
        r.new_location) = true
      rw [fsSet_ne _ _ _ h2, fsRemove_ne _ _ h1]
      exact hpres r (List.mem_cons_of_mem r0 hr)
    have hdisj' : ∀ r ∈ L, ∀ q ∈ L, r.original ≠ q.new_location :=
      fun r hr q hq =>
        hdisj r (List.mem_cons_of_mem r0 hr) q (List.mem_cons_of_mem r0 hq)
    obtain ⟨ih1, ih2, ih3⟩ := ih fs1 (n + 1) hpres1 hndN' hndO' hdisj'
    have hfs1new : ∀ r ∈ L, fs1 r.new_location = fs r.new_location := by
      intro r hr
      have h1 : r.new_location ≠ r0.new_location := by
        intro h
        exact hN0 (h ▸ List.mem_map_of_mem (fun q => q.new_location) hr)
      have h2 : r.new_location ≠ r0.original :=
        fun h => hdisj r0 (List.mem_cons_self r0 L) r (List.mem_cons_of_mem r0 hr) h.symm
      rw [hfs1]
      show fsSet (fsRemove fs r0.new_location) r0.original (.file id0) r.new_location
        = fs r.new_location
      rw [fsSet_ne _ _ _ h2, fsRemove_ne _ _ h1]
    refine ⟨?_, ?_, ?_⟩
    · intro r hr
      rcases List.mem_cons.mp hr with h | h
      · rw [hfold, h]
        have hframe : (restoreFold L (fs1, n + 1)).1 r0.original = fs1 r0.original := by
          apply ih2
          intro q hq
          refine ⟨?_, ?_⟩
          · intro hEq
            exact hO0 (hEq ▸ List.mem_map_of_mem (fun x => x.original) hq)
          · exact hdisj r0 (List.mem_cons_self r0 L) q (List.mem_cons_of_mem r0 hq)
        rw [hframe, hfs1]
        show fsSet (fsRemove fs r0.new_location) r0.original (.file id0) r0.original
          = fs r0.new_location
        rw [fsSet_self, hid0]
      · rw [hfold, ih1 r h, hfs1new r h]
    · intro p hp
      have hp0 := hp r0 (List.mem_cons_self r0 L)
      rw [hfold, ih2 p (fun r hr => hp r (List.mem_cons_of_mem r0 hr)), hfs1]
      show fsSet (fsRemove fs r0.new_location) r0.original (.file id0) p = fs p
      rw [fsSet_ne _ _ _ hp0.1, fsRemove_ne _ _ hp0.2]
    · rw [hfold, ih3]
      simp [List.length_cons]
      omega

/-! ## Invariants of the configuration merge -/

/-- The default's value at this key is a mapping. -/
def isDictAt (o : Option JVal) : Bool :=
  match o with
  | some (.dict _) => true
  | _ => false

/-- The value is a mapping. -/
def isDict (v : JVal) : Bool :=
  match v with
  | .dict _ => true
  | _ => false

/-- When the override's keys are unique (as JSON decoding guarantees) and no
override value is a non-mapping sitting on a mapping default, the merge loop
never raises and computes exactly the per-key rule of the claim, applied
against the original default. -/
theorem loadLoop_claim (dflt0 : List (List Char × JVal)) :
    ∀ (user cfg dcur : List (List Char × JVal)),
    (user.map (fun kv => kv.1)).Nodup →
    (∀ kv ∈ user, alookup cfg kv.1 = alookup dflt0 kv.1) →
    (∀ kv ∈ user, isDictAt (alookup dflt0 kv.1) = true → isDict kv.2 = true) →
    (loadLoop user cfg dcur).config
        = user.foldl (fun c kv => claimMergeKey dflt0 c kv.1 kv.2) cfg ∧
    (loadLoop user cfg dcur).warned = false := by
  intro user
  induction user with
  | nil => intro cfg dcur _ _ _; exact ⟨rfl, rfl⟩
  | cons kv rest ih =>
    intro cfg dcur hnd hlook hwt
    obtain ⟨k, v⟩ := kv
    rw [List.map_cons, List.nodup_cons] at hnd
    obtain ⟨hkni, hnd'⟩ := hnd
    have hlk : alookup cfg k = alookup dflt0 k :=
      hlook ⟨k, v⟩ (List.mem_cons_self _ rest)
    have hrest : ∀ (cfg' : List (List Char × JVal)),
        (∀ kv' ∈ rest, alookup cfg' kv'.1 = alookup cfg kv'.1) →
        ∀ kv' ∈ rest, alookup cfg' kv'.1 = alookup dflt0 kv'.1 := by
      intro cfg' h kv' hkv'
      rw [h kv' hkv', hlook kv' (List.mem_cons_of_mem _ hkv')]
    have hwt' : ∀ kv' ∈ rest, isDictAt (alookup dflt0 kv'.1) = true → isDict kv'.2 = true :=
      fun kv' hkv' => hwt kv' (List.mem_cons_of_mem _ hkv')
    have haset : ∀ (w : JVal) (kv' : List Char × JVal), kv' ∈ rest →
        alookup (aset cfg k w) kv'.1 = alookup cfg kv'.1 := by
      intro w kv' hkv'
      apply alookup_aset_ne
      intro hEq
      exact hkni (hEq ▸ List.mem_map_of_mem (fun e => e.1) hkv')
    cases halo : alookup dflt0 k with
    | none =>
      have hcfg : alookup cfg k = none := hlk.trans halo
      have hstep : loadLoop (⟨k, v⟩ :: rest) cfg dcur = loadLoop rest (aset cfg k v) dcur := by
        simp [loadLoop, hcfg]
      rw [hstep, List.foldl_cons]
      have hck : claimMergeKey dflt0 cfg k v = aset cfg k v := by
        simp [claimMergeKey, halo]
      rw [hck]
      exact ih (aset cfg k v) dcur hnd' (hrest _ (haset v)) hwt'
    | some val =>
      cases val with
      | dict d =>
        have hcfg : alookup cfg k = some (.dict d) := hlk.trans halo
        have hvd : isDict v = true := hwt ⟨k, v⟩ (List.mem_cons_self _ rest) (by rw [halo]; rfl)
        cases v with
        | dict u =>
          have hstep : loadLoop (⟨k, .dict u⟩ :: rest) cfg dcur
              = loadLoop rest (aset cfg k (.dict (dictUpdate d u)))
                  (aset dcur k (.dict (dictUpdate d u))) := by
            simp [loadLoop, hcfg, updateWith]
          have hck : claimMergeKey dflt0 cfg k (.dict u)
              = aset cfg k (.dict (dictUpdate d u)) := by
            simp [claimMergeKey, halo]
          rw [hstep, List.foldl_cons, hck]
          exact ih _ _ hnd' (hrest _ (haset _)) hwt'
        | arr es => exact absurd hvd (by simp [isDict])
        | str s => exact absurd hvd (by simp [isDict])
        | boolean b => exact absurd hvd (by simp [isDict])
        | num m => exact absurd hvd (by simp [isDict])
      | arr es =>
        have hcfg : alookup cfg k = some (.arr es) := hlk.trans halo
        have hstep : loadLoop (⟨k, v⟩ :: rest) cfg dcur = loadLoop rest (aset cfg k v) dcur := by
          simp [loadLoop, hcfg]
        have hck : claimMergeKey dflt0 cfg k v = aset cfg k v := by
          cases v <;> simp [claimMergeKey, halo]
        rw [hstep, List.foldl_cons, hck]
        exact ih _ _ hnd' (hrest _ (haset v)) hwt'
      | str s =>
        have hcfg : alookup cfg k = some (.str s) := hlk.trans halo
        have hstep : loadLoop (⟨k, v⟩ :: rest) cfg dcur = loadLoop rest (aset cfg k v) dcur := by
          simp [loadLoop, hcfg]
        have hck : claimMergeKey dflt0 cfg k v = aset cfg k v := by
          cases v <;> simp [claimMergeKey, halo]
        rw [hstep, List.foldl_cons, hck]
        exact ih _ _ hnd' (hrest _ (haset v)) hwt'
      | boolean b =>
        have hcfg : alookup cfg k = some (.boolean b) := hlk.trans halo
        have hstep : loadLoop (⟨k, v⟩ :: rest) cfg dcur = loadLoop rest (aset cfg k v) dcur := by
          simp [loadLoop, hcfg]
        have hck : claimMergeKey dflt0 cfg k v = aset cfg k v := by
          cases v <;> simp [claimMergeKey, halo]
        rw [hstep, List.foldl_cons, hck]
        exact ih _ _ hnd' (hrest _ (haset v)) hwt'
      | num m =>
        have hcfg : alookup cfg k = some (.num m) := hlk.trans halo
        have hstep : loadLoop (⟨k, v⟩ :: rest) cfg dcur = loadLoop rest (aset cfg k v) dcur := by
          simp [loadLoop, hcfg]
        have hck : claimMergeKey dflt0 cfg k v = aset cfg k v := by
          cases v <;> simp [claimMergeKey, halo]
        rw [hstep, List.foldl_cons, hck]
        exact ih _ _ hnd' (hrest _ (haset v)) hwt'

/-! ## Projections of `organize_files` and `restore_files` -/

theorem organize_ops_eq (cfg : EngineConfig) (desk : Path) (time : List Char)
    (faults : List Char → Bool) (fs0 : FS) (listing : List (List Char)) :
    (organize_files cfg desk time faults fs0 listing).ops
      = ((listing.filter (fun g => !should_skip_file g cfg.skip_files)).foldl
          (processFile cfg desk time faults) ⟨fs0, [], 0, []⟩).ops := by
  simp only [organize_files]
  split <;> rfl

theorem organize_errors_eq (cfg : EngineConfig) (desk : Path) (time : List Char)
    (faults : List Char → Bool) (fs0 : FS) (listing : List (List Char)) :
    (organize_files cfg desk time faults fs0 listing).errors
      = ((listing.filter (fun g => !should_skip_file g cfg.skip_files)).foldl
          (processFile cfg desk time faults) ⟨fs0, [], 0, []⟩).errors := by
  simp only [organize_files]
  split <;> rfl

theorem organize_processed_eq (cfg : EngineConfig) (desk : Path) (time : List Char)
    (faults : List Char → Bool) (fs0 : FS) (listing : List (List Char)) :
    (organize_files cfg desk time faults fs0 listing).processed
      = ((listing.filter (fun g => !should_skip_file g cfg.skip_files)).foldl
          (processFile cfg desk time faults) ⟨fs0, [], 0, []⟩).processed := by
  simp only [organize_files]
  split <;> rfl

/-- Away from the log path, the final filesystem is the loop's filesystem. -/
theorem organize_fs_ne (cfg : EngineConfig) (desk : Path) (time : List Char)
    (faults : List Char → Bool) (fs0 : FS) (listing : List (List Char)) {p : Path}
    (hp : p ≠ desk ++ [logName]) :
    (organize_files cfg desk time faults fs0 listing).fs p
      = ((listing.filter (fun g => !should_skip_file g cfg.skip_files)).foldl
          (processFile cfg desk time faults) ⟨fs0, [], 0, []⟩).fs p := by
  simp only [organize_files]
  split
  · exact fsSet_ne _ _ _ hp
  · rfl

/-- When logging is on and a move was recorded, the run ends by writing the
log file over whatever the log path held. -/
theorem organize_fs_log (cfg : EngineConfig) (desk : Path) (time : List Char)
    (faults : List Char → Bool) (fs0 : FS) (listing : List (List Char))
    (hb : cfg.backup_log = true)
    (hne : ((listing.filter (fun g => !should_skip_file g cfg.skip_files)).foldl
        (processFile cfg desk time faults) ⟨fs0, [], 0, []⟩).ops ≠ []) :
    (organize_files cfg desk time faults fs0 listing).fs
      = fsSet
          ((listing.filter (fun g => !should_skip_file g cfg.skip_files)).foldl
            (processFile cfg desk time faults) ⟨fs0, [], 0, []⟩).fs
          (desk ++ [logName])
          (.log ((listing.filter (fun g => !should_skip_file g cfg.skip_files)).foldl
            (processFile cfg desk time faults) ⟨fs0, [], 0, []⟩).ops) := by
  have hemp : ((listing.filter (fun g => !should_skip_file g cfg.skip_files)).foldl
      (processFile cfg desk time faults) ⟨fs0, [], 0, []⟩).ops.isEmpty = false := by
    simp only [List.isEmpty_eq_false]
    exact hne
  simp only [organize_files, hb, hemp]
  rfl

/-- Unfolding of `restore_files` on a parsed, non-empty operation list. -/
theorem restore_files_run {fs : FS} {logPath : Path} {ops : List MoveRecord}
    (h : ops.isEmpty = false) :
    restore_files fs logPath (.parsed ops)
      = (fsRemove (restoreFold ops.reverse (fs, 0)).1 logPath,
         .done (restoreFold ops.reverse (fs, 0)).2 ops.length) := by
  simp only [restore_files, h]
  rfl

/-! ## Claim C2 — classification -/

/-- Claim C2 counterexample: for the dotfile `".txt"`, `os.path.splitext`
yields an empty extension, so the script files it under `其他`, while the
claim's extraction rule ("the final dot-delimited suffix, empty only if there
is no dot") would yield `".txt"` and file it under `文档`. -/
theorem C2_counterexample :
    classifyName defaultCategories ".txt".toList = uncategorizedName ∧
    classifyClaim defaultCategories ".txt".toList = "文档".toList ∧
    uncategorizedName ≠ "文档".toList := by
  exact ⟨by decide, by decide, by decide⟩

/-- Claim C2 (amended): classification lower-cases the `os.path.splitext`
extension — the final dot-delimited suffix including the dot, except that a
name whose characters before its last dot are all dots (a dotfile) has empty
extension — iterates the categories in insertion order, assigns the file to
the first category whose extension set contains that suffix, and falls back
to `其他` when no category matches. -/
theorem C2_classification (cats : Categories) (f : List Char) :
    ((∀ c ∈ cats, pyExt f ∉ c.2) → classifyName cats f = uncategorizedName) ∧
    (∀ (i : Nat) (hi : i < cats.length), pyExt f ∈ (cats.get ⟨i, hi⟩).2 →
      (∀ (j : Nat) (hj : j < i), pyExt f ∈ (cats.get ⟨j, Nat.lt_trans hj hi⟩).2 → False) →
      classifyName cats f = (cats.get ⟨i, hi⟩).1) := by
  constructor
  · intro h
    simp [classifyName, classifyCat_eq_none h]
  · intro i hi hmem hbefore
    simp [classifyName, classifyCat_first cats (pyExt f) i hi hmem hbefore]

/-- Witness for C2: `"Pic.JPG"` goes to the first category (`图片`), and
`"x.xyz"`, matching no category, goes to `其他`. -/
theorem C2_classification_witness :
    classifyName defaultCategories "Pic.JPG".toList = "图片".toList ∧
    classifyName defaultCategories "x.xyz".toList = uncategorizedName := by
  constructor
  · exact (C2_classification defaultCategories "Pic.JPG".toList).2 0 (by decide)
      (by decide) (fun j hj _ => absurd hj (Nat.not_lt_zero j))
  · exact (C2_classification defaultCategories "x.xyz".toList).1 (by decide)

/-! ## Claim C3 — the skip filter -/

/-- Claim C3 counterexample: the script never lower-cases the pattern, so the
pattern `".INI"` does not match the filename `"a.ini"`, although the claim's
rule (substring test on the lower-cased pattern) says it must. -/
theorem C3_counterexample :
    should_skip_file "a.ini".toList [".INI".toList] = false ∧
    shouldSkipClaim "a.ini".toList [".INI".toList] = true := by
  exact ⟨by decide, by decide⟩

/-- Claim C3 (amended): `should_skip_file` returns true exactly when some
pattern matches, where a pattern beginning with `'.'` matches when the
lower-cased filename ends with the pattern taken verbatim, and any pattern
taken verbatim (not lower-cased) matches when it is a substring of the
lower-cased filename; evaluation is in order with no side effects. -/
theorem C3_skip_characterization (filename : List Char) (patterns : List (List Char)) :
    should_skip_file filename patterns = true ↔
    ∃ p ∈ patterns,
      (['.'] <+: p ∧ p <:+ pyLower filename) ∨ p <:+: pyLower filename := by
  simp only [should_skip_file, List.any_eq_true, Bool.or_eq_true, Bool.and_eq_true,
    List.isPrefixOf_iff_prefix, List.isSuffixOf_iff_suffix, strContains_iff]

/-! ## Claim C7 — absent or malformed log -/

/-- Claim C7 (confirmed): when the log file is absent or cannot be parsed as
the expected structure, restore reports the error and ends with the
filesystem untouched — in particular a present-but-malformed log file is not
deleted, and no file is moved. -/
theorem C7_fatal_log_errors (fs : FS) (logPath : Path) :
    restore_files fs logPath .notFound = (fs, .noLog) ∧
    restore_files fs logPath .malformed = (fs, .badLog) :=
  ⟨rfl, rfl⟩

/-! ## Concrete data used by several examples -/

def deskX : Path := ["Desktop".toList]

def timeX : List Char := "123456".toList

def noFaults : List Char → Bool := fun _ => false

/-! ## Claim C4 — collision handling -/

def cfgX4 : EngineConfig := ⟨[], defaultCategories, false⟩

def fsX4 : FS :=
  fsSet (fsSet emptyFS (deskX ++ ["c.xyz".toList]) (.file 1))
    (deskX ++ [uncategorizedName] ++ ["c.xyz".toList]) (.file 2)

/-- Claim C4 counterexample: the uncategorized branch performs no collision
check at all — organizing `c.xyz` while `其他/c.xyz` already exists moves the
file straight onto the existing one, destroying it (it is not renamed to
`base_HHMMSS.ext`, and afterwards only one of the two files exists). -/
theorem C4_counterexample :
    fsX4 (deskX ++ [uncategorizedName] ++ ["c.xyz".toList]) = some (.file 2) ∧
    (organize_files cfgX4 deskX timeX noFaults fsX4 ["c.xyz".toList]).fs
        (deskX ++ [uncategorizedName] ++ ["c.xyz".toList]) = some (.file 1) ∧
    (organize_files cfgX4 deskX timeX noFaults fsX4 ["c.xyz".toList]).processed = 1 := by
  exact ⟨by decide, by decide, by decide⟩

/-- Claim C4 (amended): in the categorized branch, the computed destination
is kept when free and replaced by `base_HHMMSS.ext` in the same folder when
occupied; moving to the resolved destination overwrites no existing file
provided the resolved destination is itself free.  (The uncategorized branch
performs no such check, and a same-second collision on the renamed path is
overwritten — see the counterexample.) -/
theorem C4_collision_resolution (fs : FS) (folder : Path) (filename time : List Char)
    (src : Path) (data : FData) :
    (fs (folder ++ [filename]) = none →
      resolveDst fs folder filename time = folder ++ [filename]) ∧
    ((fs (folder ++ [filename])).isSome →
      resolveDst fs folder filename time
        = folder ++ [(splitext filename).1 ++ ('_' :: time) ++ (splitext filename).2]) ∧
    (fs (resolveDst fs folder filename time) = none →
      ∀ p d, fs p = some d → p ≠ src →
        fsSet (fsRemove fs src) (resolveDst fs folder filename time) data p = some d) := by
  refine ⟨?_, ?_, ?_⟩
  · intro h
    simp [resolveDst, h]
  · intro h
    simp [resolveDst, h]
  · intro h p d hp hps
    have hpd : p ≠ resolveDst fs folder filename time := by
      intro hEq
      rw [hEq, h] at hp
      exact Option.noConfusion hp
    rw [fsSet_ne _ _ _ hpd, fsRemove_ne _ _ hps, hp]

/-- Witness for C4: with `图片/a.txt` free the destination is kept; with it
occupied the destination becomes `图片/a_123456.txt`. -/
theorem C4_collision_resolution_witness :
    resolveDst emptyFS (deskX ++ ["图片".toList]) "a.txt".toList timeX
        = deskX ++ ["图片".toList] ++ ["a.txt".toList] ∧
    resolveDst (fsSet emptyFS (deskX ++ ["图片".toList] ++ ["a.txt".toList]) (.file 3))
        (deskX ++ ["图片".toList]) "a.txt".toList timeX
        = deskX ++ ["图片".toList] ++ ["a_123456.txt".toList] := by
  constructor
  · exact (C4_collision_resolution emptyFS (deskX ++ ["图片".toList]) "a.txt".toList
      timeX [] (.file 0)).1 (by decide)
  · exact ((C4_collision_resolution
      (fsSet emptyFS (deskX ++ ["图片".toList] ++ ["a.txt".toList]) (.file 3))
      (deskX ++ ["图片".toList]) "a.txt".toList timeX [] (.file 0)).2.1 (by decide)).trans
      (by decide)

/-! ## Claim C5 — per-file fault isolation -/

/-- Claim C5 (confirmed): any failure of the move primitive while processing
one file is caught for that file alone — the file lands in the error report,
is not counted as processed, and every other (non-skipped, non-faulting) file
of the batch is still processed; no single file's failure aborts the run. -/
theorem C5_fault_isolation (cfg : EngineConfig) (desk : Path) (time : List Char)
    (faults : List Char → Bool) (fs0 : FS) (listing : List (List Char))
    (hsrc : ∀ f ∈ listing, isFile (fs0 (desk ++ [f])) = true)
    (hnd : listing.Nodup) :
    (organize_files cfg desk time faults fs0 listing).errors
        = (listing.filter (fun g => !should_skip_file g cfg.skip_files)).filter faults ∧
    (organize_files cfg desk time faults fs0 listing).processed
        = ((listing.filter (fun g => !should_skip_file g cfg.skip_files)).filter
            (fun g => !faults g)).length := by
  obtain ⟨Δ, h1, h2, h3, h4, h5, h6, h7⟩ :=
    orgFold_spec cfg desk time faults
      (listing.filter (fun g => !should_skip_file g cfg.skip_files))
      ⟨fs0, [], 0, []⟩
      (fun f hf => hsrc f (List.mem_filter.mp hf).1)
      (hnd.filter _)
  constructor
  · rw [organize_errors_eq, h2]
    simp
  · rw [organize_processed_eq, h3]
    simp

def fsX5 : FS :=
  fsSet (fsSet emptyFS (deskX ++ ["a.txt".toList]) (.file 1))
    (deskX ++ ["b.txt".toList]) (.file 2)

/-- Witness for C5: with `a.txt` faulting (say, permission denied), the run
reports exactly `a.txt` and still processes `b.txt`. -/
theorem C5_fault_isolation_witness :
    (organize_files ⟨[], defaultCategories, true⟩ deskX timeX
        (fun f => f = "a.txt".toList) fsX5 ["a.txt".toList, "b.txt".toList]).errors
      = ["a.txt".toList] ∧
    (organize_files ⟨[], defaultCategories, true⟩ deskX timeX
        (fun f => f = "a.txt".toList) fsX5 ["a.txt".toList, "b.txt".toList]).processed = 1 := by
  have h := C5_fault_isolation ⟨[], defaultCategories, true⟩ deskX timeX
    (fun f => f = "a.txt".toList) fsX5 ["a.txt".toList, "b.txt".toList]
    (by decide) (by decide)
  exact ⟨h.1.trans (by decide), h.2.trans (by decide)⟩

/-! ## Claim C6 — restore always deletes the log -/

/-- Claim C6 (confirmed): on a parsed non-empty operation list, restore ends
with nothing at the log path (the log is deleted unconditionally) and reports
`done s n` for the full record count `n`; on an empty operation list restore
is a no-op that does not delete the log; a record whose recorded new location
no longer exists is not counted and changes nothing — the loop continues. -/
theorem C6_log_always_deleted (fs : FS) (logPath : Path) (ops : List MoveRecord)
    (h : ops ≠ []) :
    (restore_files fs logPath (.parsed ops)).1 logPath = none ∧
    (∃ s, (restore_files fs logPath (.parsed ops)).2 = .done s ops.length) ∧
    restore_files fs logPath (.parsed []) = (fs, .emptyOps) ∧
    (∀ r : MoveRecord, fs r.new_location = none → restoreStep fs r = (fs, false)) := by
  have hemp : ops.isEmpty = false := by
    simp only [List.isEmpty_eq_false]
    exact h
  refine ⟨?_, ?_, rfl, fun r hr => restoreStep_miss hr⟩
  · rw [restore_files_run hemp]
    exact fsRemove_self _ _
  · exact ⟨(restoreFold ops.reverse (fs, 0)).2, by rw [restore_files_run hemp]⟩

def opX6 : MoveRecord :=
  ⟨deskX ++ ["a.txt".toList], deskX ++ ["文档".toList, "a.txt".toList]⟩

def fsX6 : FS := fsSet emptyFS (deskX ++ [logName]) (.log [opX6])

/-- Witness for C6 (spec Scenario C): one record whose recorded new location
was deleted beforehand — restore still deletes the log, reports a full total,
and the missing record counts as no success. -/
theorem C6_log_always_deleted_witness :
    (restore_files fsX6 (deskX ++ [logName]) (.parsed [opX6])).1 (deskX ++ [logName])
        = none ∧
    (∃ s, (restore_files fsX6 (deskX ++ [logName]) (.parsed [opX6])).2
        = .done s [opX6].length) ∧
    restore_files fsX6 (deskX ++ [logName]) (.parsed []) = (fsX6, .emptyOps) ∧
    (∀ r : MoveRecord, fsX6 r.new_location = none → restoreStep fsX6 r = (fsX6, false)) :=
  C6_log_always_deleted fsX6 (deskX ++ [logName]) [opX6] (by decide)

/-! ## Claim C8 — configuration merging -/

/-- Claim C8 counterexample: the script checks only that the DEFAULT value is
a dict before calling `config[key].update(...)`, so a scalar override for
`"categories"` raises inside `update`, is caught by the warning branch, and
leaves the default dict in place — it does not "fully replace the default
value" as the claim requires (the claim's own merge rule would put the scalar
there). -/
theorem C8_counterexample :
    (load_config DEFAULT_CONFIG (.parsed [("categories".toList, .num 5)])).warned
        = true ∧
    isDictAt (alookup (load_config DEFAULT_CONFIG
        (.parsed [("categories".toList, .num 5)])).config "categories".toList) = true ∧
    isDictAt (alookup (claimMerge DEFAULT_CONFIG
        [("categories".toList, .num 5)]) "categories".toList) = false := by
  exact ⟨by decide, by decide, by decide⟩

/-- Claim C8 (amended): for override files that read and parse, whose keys
are unique, and which never place a non-mapping override value on a key whose
default value is a mapping, the merge follows the claimed per-key rule (deep
one-level merge when default and override values are both mappings, full
replacement otherwise) with no warning; an unreadable or unparsable override
file skips the merge entirely, returns the default unchanged, and warns
rather than raises.  (When a non-mapping override value meets a mapping
default, `dict.update` raises instead of replacing — see the
counterexample.) -/
theorem C8_config_merge (dflt user : List (List Char × JVal))
    (hnd : (user.map (fun kv => kv.1)).Nodup)
    (hwt : ∀ kv ∈ user, isDictAt (alookup dflt kv.1) = true → isDict kv.2 = true) :
    (load_config dflt (.parsed user)).config = claimMerge dflt user ∧
    (load_config dflt (.parsed user)).warned = false ∧
    load_config dflt .unreadable = ⟨dflt, dflt, true⟩ := by
  obtain ⟨h1, h2⟩ := loadLoop_claim dflt user dflt dflt hnd (fun kv _ => rfl) hwt
  exact ⟨h1, h2, rfl⟩

def overrideX8 : List (List Char × JVal) :=
  [("backup_log".toList, .boolean false),
   ("categories".toList, .dict [("新类".toList, .arr [.str ".foo".toList])])]

/-- Witness for C8: a well-typed override (scalar replacing a scalar, mapping
merging into a mapping) merges exactly per the claimed rule, with no
warning. -/
theorem C8_config_merge_witness :
    (load_config DEFAULT_CONFIG (.parsed overrideX8)).config
        = claimMerge DEFAULT_CONFIG overrideX8 ∧
    (load_config DEFAULT_CONFIG (.parsed overrideX8)).warned = false ∧
    load_config DEFAULT_CONFIG .unreadable = ⟨DEFAULT_CONFIG, DEFAULT_CONFIG, true⟩ :=
  C8_config_merge DEFAULT_CONFIG overrideX8 (by decide) (by decide)

/-! ## Claim C9 — skipped files are never moved -/

def cfgX9 : EngineConfig := ⟨[".json".toList], defaultCategories, true⟩

def fsX9 : FS :=
  fsSet (fsSet emptyFS (deskX ++ [logName]) (.file 0))
    (deskX ++ ["a.txt".toList]) (.file 1)

/-- Claim C9 counterexample: a skipped file named exactly like the
transaction log (`文件整理备份.json`) is indeed never moved, but the end-of-run
log write (line 146) opens that very path with mode `w` and overwrites it, so
the file does NOT survive the run at its original path as the claim states. -/
theorem C9_counterexample :
    should_skip_file logName cfgX9.skip_files = true ∧
    fsX9 (deskX ++ [logName]) = some (.file 0) ∧
    (organize_files cfgX9 deskX timeX noFaults fsX9
        [logName, "a.txt".toList]).fs (deskX ++ [logName]) ≠ some (.file 0) := by
  exact ⟨by decide, by decide, by decide⟩

/-- Claim C9 (amended): a file matched by the skip filter is never moved by
organize — it is still at its original path afterwards and no record of it
enters the transaction log — provided its name is not the fixed log filename
`文件整理备份.json`, which the end-of-run log write overwrites. -/
theorem C9_skipped_untouched (cfg : EngineConfig) (desk : Path) (time : List Char)
    (faults : List Char → Bool) (fs0 : FS) (listing : List (List Char)) (f : List Char)
    (hskip : should_skip_file f cfg.skip_files = true)
    (hlog : f ≠ logName) :
    (organize_files cfg desk time faults fs0 listing).fs (desk ++ [f])
        = fs0 (desk ++ [f]) ∧
    (∀ r ∈ (organize_files cfg desk time faults fs0 listing).ops,
        r.original ≠ desk ++ [f]) := by
  have hnotin : f ∉ listing.filter (fun g => !should_skip_file g cfg.skip_files) := by
    intro hmem
    have h := (List.mem_filter.mp hmem).2
    rw [hskip] at h
    simp at h
  have hne : (desk ++ [f]) ≠ desk ++ [logName] := fun h => hlog (join_inj h)
  constructor
  · rw [organize_fs_ne cfg desk time faults fs0 listing hne]
    apply orgFold_frame
    · intro g hg hEq
      exact hnotin ((join_inj hEq) ▸ hg)
    · rw [join_len]
      omega
  · intro r hr
    rw [organize_ops_eq] at hr
    rcases orgFold_ops cfg desk time faults _ _ r hr with h | ⟨g, hg, ho⟩
    · exact absurd h (List.not_mem_nil r)
    · rw [ho]
      intro hEq
      exact hnotin ((join_inj hEq) ▸ hg)

/-- Witness for C9: `draft.tmp` matches the default skip pattern `.tmp`, so
organizing a desktop containing it and `a.txt` leaves it in place and out of
the log. -/
theorem C9_skipped_untouched_witness :
    (organize_files ⟨defaultSkip, defaultCategories, true⟩ deskX timeX noFaults
        fsX5 ["draft.tmp".toList, "a.txt".toList]).fs (deskX ++ ["draft.tmp".toList])
      = fsX5 (deskX ++ ["draft.tmp".toList]) ∧
    (∀ r ∈ (organize_files ⟨defaultSkip, defaultCategories, true⟩ deskX timeX noFaults
        fsX5 ["draft.tmp".toList, "a.txt".toList]).ops,
        r.original ≠ deskX ++ ["draft.tmp".toList]) :=
  C9_skipped_untouched ⟨defaultSkip, defaultCategories, true⟩ deskX timeX noFaults
    fsX5 ["draft.tmp".toList, "a.txt".toList] "draft.tmp".toList (by decide) (by decide)

/-! ## Claim C10 — `load_config` mutates the module-level default -/

def overrideX10 : List (List Char × JVal) :=
  [("categories".toList, .dict [("新类".toList, .arr [.str ".foo".toList])])]

/-- Claim C10 (confirmed): `config = DEFAULT_CONFIG.copy()` is shallow, so an
override whose `categories` maps onto the nested default dict mutates
`DEFAULT_CONFIG` itself (its category table gains `新类`), and a later
`load_config` call with no override returns the previously merged table
rather than the original default — two calls with the same argument return
different results. -/
theorem C10_default_mutated :
    catKeys (load_config DEFAULT_CONFIG (.parsed overrideX10)).dflt
        = catKeys DEFAULT_CONFIG ++ ["新类".toList] ∧
    catKeys (load_config
        (load_config DEFAULT_CONFIG (.parsed overrideX10)).dflt .absent).config
      ≠ catKeys (load_config DEFAULT_CONFIG .absent).config := by
  exact ⟨by decide, by decide⟩

/-! ## Claim C1 — organize/restore round trip -/

def cfgX1 : EngineConfig := ⟨defaultSkip, defaultCategories, true⟩

def fsX1 : FS := fsSet emptyFS (deskX ++ [logName]) (.file 7)

/-- Claim C1 counterexample: a desktop containing a single file named
`文件整理备份.json` (the fixed log filename).  Organize moves it to `其他/` and
records the move; the log is then written at the file's original path.
Restore moves the file back — over the log — and the unconditional
`os.remove(log_path)` then deletes the restored file itself.  After the round
trip the recorded file exists at no path at all, with no external alteration
between the runs. -/
theorem C1_counterexample :
    (organize_files cfgX1 deskX timeX noFaults fsX1 [logName]).ops
        = [⟨deskX ++ [logName], deskX ++ [uncategorizedName] ++ [logName]⟩] ∧
    fsX1 (deskX ++ [logName]) = some (.file 7) ∧
    (restore_files (organize_files cfgX1 deskX timeX noFaults fsX1 [logName]).fs
        (deskX ++ [logName])
        (.parsed (organize_files cfgX1 deskX timeX noFaults fsX1 [logName]).ops)).1
      (deskX ++ [logName]) = none ∧
    (restore_files (organize_files cfgX1 deskX timeX noFaults fsX1 [logName]).fs
        (deskX ++ [logName])
        (.parsed (organize_files cfgX1 deskX timeX noFaults fsX1 [logName]).ops)).1
      (deskX ++ [uncategorizedName] ++ [logName]) = none := by
  exact ⟨by decide, by decide, by decide, by decide⟩

/-- Claim C1 (amended): for every organize run that records a transaction
log, restoring from that log replays the moves in reverse and returns every
recorded file to its original path with its content, and the log file no
longer exists afterwards — provided no record's new location was externally
altered, and additionally that no two recorded moves share a destination
(the same-second collision resolver can duplicate one) and no listed file
carries the log's own filename (the log write and final log deletion destroy
such a file). -/
theorem C1_round_trip (cfg : EngineConfig) (desk : Path) (time : List Char)
    (faults : List Char → Bool) (fs0 : FS) (listing : List (List Char))
    (hb : cfg.backup_log = true)
    (hnd : listing.Nodup)
    (hsrc : ∀ f ∈ listing, isFile (fs0 (desk ++ [f])) = true)
    (hlogn : logName ∉ listing)
    (hne : (organize_files cfg desk time faults fs0 listing).ops ≠ [])
    (hdest : ((organize_files cfg desk time faults fs0 listing).ops.map
        (fun r => r.new_location)).Nodup) :
    (∀ r ∈ (organize_files cfg desk time faults fs0 listing).ops,
        (restore_files (organize_files cfg desk time faults fs0 listing).fs
            (desk ++ [logName])
            (.parsed (organize_files cfg desk time faults fs0 listing).ops)).1
          r.original = fs0 r.original) ∧
    (restore_files (organize_files cfg desk time faults fs0 listing).fs
        (desk ++ [logName])
        (.parsed (organize_files cfg desk time faults fs0 listing).ops)).1
      (desk ++ [logName]) = none ∧
    (restore_files (organize_files cfg desk time faults fs0 listing).fs
        (desk ++ [logName])
        (.parsed (organize_files cfg desk time faults fs0 listing).ops)).2
      = .done (organize_files cfg desk time faults fs0 listing).ops.length
          (organize_files cfg desk time faults fs0 listing).ops.length := by
  obtain ⟨Δ, h1, h2, h3, h4, h5, h6, h7⟩ :=
    orgFold_spec cfg desk time faults
      (listing.filter (fun g => !should_skip_file g cfg.skip_files))
      ⟨fs0, [], 0, []⟩
      (fun f hf => hsrc f (List.mem_filter.mp hf).1)
      (hnd.filter _)
  have hops : (organize_files cfg desk time faults fs0 listing).ops = Δ := by
    rw [organize_ops_eq, h1, hb]
    simp
  have hΔne : Δ ≠ [] := fun h => hne (hops.trans h)
  have hFne : ((listing.filter (fun g => !should_skip_file g cfg.skip_files)).foldl
      (processFile cfg desk time faults) ⟨fs0, [], 0, []⟩).ops ≠ [] := by
    rw [h1, hb]
    simpa using hΔne
  have hfs := organize_fs_log cfg desk time faults fs0 listing hb hFne
  have hdestΔ : (Δ.map (fun r => r.new_location)).Nodup := by
    rw [hops] at hdest
    exact hdest
  have horigOf : ∀ r ∈ Δ, ∃ g, g ∈ listing ∧ g ≠ logName ∧ r.original = desk ++ [g] := by
    intro r hr
    have hmm : r.original ∈ Δ.map (fun q => q.original) :=
      List.mem_map_of_mem (fun q => q.original) hr
    rw [h4] at hmm
    obtain ⟨g, hg, hEq⟩ := List.mem_map.mp hmm
    have hgl : g ∈ listing := (List.mem_filter.mp (List.mem_filter.mp hg).1).1
    exact ⟨g, hgl, fun hh => hlogn (hh ▸ hgl), hEq.symm⟩
  have horiglen : ∀ r ∈ Δ, r.original.length = desk.length + 1 := by
    intro r hr
    obtain ⟨g, _, _, hEq⟩ := horigOf r hr
    rw [hEq, join_len]
  have hpres : ∀ r ∈ Δ, ∃ id,
      (organize_files cfg desk time faults fs0 listing).fs r.new_location
        = some (.file id) ∧ fs0 r.original = some (.file id) := by
    intro r hr
    obtain ⟨id, ha, hbb⟩ := h7 hdestΔ r hr
    refine ⟨id, ?_, hbb⟩
    rw [hfs]
    have hNlog : r.new_location ≠ desk ++ [logName] := by
      intro hEq
      have hL := congrArg List.length hEq
      rw [h5 r hr, join_len] at hL
      omega
    rw [fsSet_ne _ _ _ hNlog]
    exact ha
  have hemp : Δ.isEmpty = false := by
    simp only [List.isEmpty_eq_false]
    exact hΔne
  have hpresR : ∀ r ∈ Δ.reverse,
      isFile ((organize_files cfg desk time faults fs0 listing).fs r.new_location)
        = true := by
    intro r hr
    obtain ⟨id, ha, _⟩ := hpres r (List.mem_reverse.mp hr)
    rw [ha]
    rfl
  have hndN : ((Δ.reverse).map (fun r => r.new_location)).Nodup := by
    rw [List.map_reverse]
    exact List.nodup_reverse.mpr hdestΔ
  have hndO : ((Δ.reverse).map (fun r => r.original)).Nodup := by
    rw [List.map_reverse]
    apply List.nodup_reverse.mpr
    rw [h4]
    exact ((hnd.filter _).filter _).map (fun a b hEq => join_inj hEq)
  have hdisjR : ∀ r ∈ Δ.reverse, ∀ q ∈ Δ.reverse, r.original ≠ q.new_location := by
    intro r hr q hq hEq
    have hl1 := horiglen r (List.mem_reverse.mp hr)
    have hl2 := h5 q (List.mem_reverse.mp hq)
    rw [hEq] at hl1
    omega
  obtain ⟨ri1, ri2, ri3⟩ := restoreFold_spec Δ.reverse
    (organize_files cfg desk time faults fs0 listing).fs 0 hpresR hndN hndO hdisjR
  rw [hops, restore_files_run hemp]
  refine ⟨?_, ?_, ?_⟩
  · intro r hr
    obtain ⟨g, hgl, hgne, hEq⟩ := horigOf r hr
    have hOlog : r.original ≠ desk ++ [logName] := by
      rw [hEq]
      intro hh
      exact hgne (join_inj hh)
    show fsRemove (restoreFold Δ.reverse
        ((organize_files cfg desk time faults fs0 listing).fs, 0)).1
        (desk ++ [logName]) r.original = fs0 r.original
    rw [fsRemove_ne _ _ hOlog, ri1 r (List.mem_reverse.mpr hr)]
    obtain ⟨id, ha, hbb⟩ := hpres r hr
    rw [ha, hbb]
  · exact fsRemove_self _ _
  · show RestoreOutcome.done (restoreFold Δ.reverse
        ((organize_files cfg desk time faults fs0 listing).fs, 0)).2 Δ.length
      = .done Δ.length Δ.length
    rw [ri3]
    simp

def fsX1w : FS :=
  fsSet (fsSet emptyFS (deskX ++ ["a.jpg".toList]) (.file 11))
    (deskX ++ ["b.txt".toList]) (.file 12)

/-- Witness for C1: organizing a desktop holding `a.jpg` and `b.txt` and then
restoring from the recorded log puts both files back and removes the log. -/
theorem C1_round_trip_witness :
    (∀ r ∈ (organize_files cfgX1 deskX timeX noFaults fsX1w
        ["a.jpg".toList, "b.txt".toList]).ops,
        (restore_files (organize_files cfgX1 deskX timeX noFaults fsX1w
            ["a.jpg".toList, "b.txt".toList]).fs
            (deskX ++ [logName])
            (.parsed (organize_files cfgX1 deskX timeX noFaults fsX1w
              ["a.jpg".toList, "b.txt".toList]).ops)).1
          r.original = fsX1w r.original) ∧
    (restore_files (organize_files cfgX1 deskX timeX noFaults fsX1w
        ["a.jpg".toList, "b.txt".toList]).fs
        (deskX ++ [logName])
        (.parsed (organize_files cfgX1 deskX timeX noFaults fsX1w
          ["a.jpg".toList, "b.txt".toList]).ops)).1
      (deskX ++ [logName]) = none ∧
    (restore_files (organize_files cfgX1 deskX timeX noFaults fsX1w
        ["a.jpg".toList, "b.txt".toList]).fs
        (deskX ++ [logName])
        (.parsed (organize_files cfgX1 deskX timeX noFaults fsX1w
          ["a.jpg".toList, "b.txt".toList]).ops)).2
      = .done (organize_files cfgX1 deskX timeX noFaults fsX1w
            ["a.jpg".toList, "b.txt".toList]).ops.length
          (organize_files cfgX1 deskX timeX noFaults fsX1w
            ["a.jpg".toList, "b.txt".toList]).ops.length :=
  C1_round_trip cfgX1 deskX timeX noFaults fsX1w ["a.jpg".toList, "b.txt".toList]
    rfl (by decide) (by decide) (by decide) (by decide) (by decide)

end FileOrganizer
